import Mathlib

/-!
Verification development for the shadow_master segmentation, alignment and
timeline-assembly engine (src/shadow_cli/segmenter.py,
src/shadow_cli/practice_builder.py, src/shadow_cli/beep_generator.py).

The Python code is shallowly embedded: PCM byte buffers are lists of
naturals (byte values), the external webrtcvad classifier is an injected
function returning `Option Bool` (`none` models a raised exception, which
the source catches and maps to non-speech), and the segment detector's
frame loop is an explicit state-passing fold.  Beep/pause synthesis
(`beep_generator.py`) produces floating-point sine samples; since every
property below concerns only buffer lengths, tone and silence buffers are
modelled by their byte lengths, computed from the very same
`int(SAMPLE_RATE * duration_ms / 1000)` sample-count arithmetic as the
source (`int()` of a non-negative float division is truncation, i.e. `Nat`
division).
-/

set_option maxRecDepth 16384

namespace ShadowMaster

/-- `SAMPLE_RATE = 16000` (segmenter.py, beep_generator.py). -/
def SAMPLE_RATE : Nat := 16000

/-- `FRAME_DURATION_MS = 30` (segmenter.py). -/
def FRAME_DURATION_MS : Nat := 30

/-- A segmentation preset record, mirroring the entries of `PRESETS`
in segmenter.py. -/
structure Params where
  min_ms : Nat
  max_ms : Nat
  silence_ms : Nat
  pre_buffer_ms : Nat
deriving DecidableEq, Repr

/-- The four named presets of segmenter.py; `none` models the `KeyError`
raised by `PRESETS[preset]` for an unknown name. -/
def PRESETS (name : String) : Option Params :=
  if name = "sentences" then some ⟨500, 8000, 700, 200⟩
  else if name = "short" then some ⟨500, 3000, 500, 200⟩
  else if name = "long" then some ⟨1000, 12000, 1000, 300⟩
  else if name = "words" then some ⟨300, 2000, 400, 150⟩
  else none

/-- The `Segment` dataclass of segmenter.py.  The `texts` dict is an
insertion-ordered association list, as Python dicts are. -/
structure Segment where
  start_ms : Nat
  end_ms : Nat
  text : String := ""
  texts : List (String × String) := []
deriving DecidableEq, Repr

/-- `Segment.duration_ms` property of segmenter.py. -/
def Segment.duration_ms (s : Segment) : Nat := s.end_ms - s.start_ms

/-- Which rule closed a segment.  The source does not record this; the
tag is carried here so that per-rule properties can be stated, and is
erased by `segment_audio_frames`. -/
inductive CloseKind
  | hysteresis
  | forced
  | flush
deriving DecidableEq, Repr

/-- `silence_frames = int(silence_ms / FRAME_DURATION_MS)` (segmenter.py
line 86); `int()` of the non-negative float quotient truncates, which is
`Nat` division. -/
def silenceFrames (p : Params) : Nat := p.silence_ms / FRAME_DURATION_MS

/-- `pre_buffer_frames = int(pre_buffer_ms / FRAME_DURATION_MS)`
(segmenter.py line 87). -/
def preBufferFrames (p : Params) : Nat := p.pre_buffer_ms / FRAME_DURATION_MS

/-- Rounding to the nearest integer (half away from zero), the operation
the spec claims the threshold derivation uses.  For comparison only; the
source uses truncation. -/
def roundNearest (a b : Nat) : Nat := (2 * a + b) / (2 * b)

/-- The mutable loop state of the frame scan in `segment_audio`
(segmenter.py lines 89-92): accumulated segments, `in_speech`,
`speech_start` (a frame index) and `silence_count`. -/
structure DetState where
  segments : List (Segment × CloseKind)
  in_speech : Bool
  speech_start : Nat
  silence_count : Nat
deriving Repr

/-- One iteration of the `for i, speech in enumerate(is_speech)` loop of
`segment_audio` (segmenter.py lines 94-121).  `max(0, i - pre_buffer_frames)`
is `Nat` subtraction.  The source executes `silence_count += 1` before the
two close tests, so the value it reads afterwards is `st.silence_count + 1`
here; in particular `end_frame = i - silence_count + 1` becomes
`i - (st.silence_count + 1) + 1`. -/
def stepFrame (p : Params) (i : Nat) (speech : Bool) (st : DetState) : DetState :=
  if speech then
    if st.in_speech then
      { st with silence_count := 0 }
    else
      { st with in_speech := true, speech_start := i - preBufferFrames p, silence_count := 0 }
  else if st.in_speech then
    if silenceFrames p ≤ st.silence_count + 1 ∧
        p.min_ms ≤ (i - st.speech_start) * FRAME_DURATION_MS then
      { st with
        segments := st.segments ++
          [({ start_ms := st.speech_start * FRAME_DURATION_MS,
              end_ms := (i - (st.silence_count + 1) + 1) * FRAME_DURATION_MS },
            CloseKind.hysteresis)],
        in_speech := false, silence_count := 0 }
    else if p.max_ms ≤ (i - st.speech_start) * FRAME_DURATION_MS then
      { st with
        segments := st.segments ++
          [({ start_ms := st.speech_start * FRAME_DURATION_MS,
              end_ms := i * FRAME_DURATION_MS }, CloseKind.forced)],
        in_speech := false, silence_count := 0 }
    else
      { st with silence_count := st.silence_count + 1 }
  else
    st

/-- The indexed frame loop of `segment_audio`. -/
def detectLoop (p : Params) : Nat → DetState → List Bool → DetState
  | _, st, [] => st
  | i, st, speech :: rest => detectLoop p (i + 1) (stepFrame p i speech st) rest

/-- The trailing-speech flush of `segment_audio` (segmenter.py lines
123-131). -/
def flushTrailing (p : Params) (nFrames : Nat) (st : DetState) : List (Segment × CloseKind) :=
  if st.in_speech then
    let end_ms := nFrames * FRAME_DURATION_MS
    let duration_ms := end_ms - st.speech_start * FRAME_DURATION_MS
    if p.min_ms ≤ duration_ms then
      st.segments ++
        [({ start_ms := st.speech_start * FRAME_DURATION_MS, end_ms := end_ms }, CloseKind.flush)]
    else
      st.segments
  else
    st.segments

/-- The detector pass of `segment_audio` on an already-classified frame
decision list, keeping the close-kind tag. -/
def segmentAudioTraced (p : Params) (is_speech : List Bool) : List (Segment × CloseKind) :=
  flushTrailing p is_speech.length (detectLoop p 0 ⟨[], false, 0, 0⟩ is_speech)

/-- The segment list produced by `segment_audio` from a frame decision
list (the close-kind tag erased). -/
def segment_audio_frames (p : Params) (is_speech : List Bool) : List Segment :=
  (segmentAudioTraced p is_speech).map Prod.fst

/-- `frame_size = int(SAMPLE_RATE * FRAME_DURATION_MS / 1000) * 2`
(segmenter.py line 70): 960 bytes per 30 ms frame. -/
def frame_size : Nat := (SAMPLE_RATE * FRAME_DURATION_MS / 1000) * 2

/-- The framing loop of `segment_audio` (segmenter.py lines 71-75):
`for i in range(0, len(pcm_data) - frame_size + 1, frame_size)` visits the
byte offsets `i = k * frame_size` for `k < len(pcm_data) / frame_size`
(floor division), and each visited slice `pcm_data[i : i + frame_size]`
has exactly `frame_size` bytes, so the inner length guard always passes;
any shorter trailing remainder is discarded. -/
def framesOf (pcm : List Nat) : List (List Nat) :=
  (List.range (pcm.length / frame_size)).map
    fun k => (pcm.drop (k * frame_size)).take frame_size

/-- The classification pass of `segment_audio` (segmenter.py lines 78-83):
`try: is_speech.append(vad.is_speech(...)) except Exception:
is_speech.append(False)`.  A classifier raising is modelled by `none`. -/
def classifyAll (classify : List Nat → Option Bool) (frames : List (List Nat)) : List Bool :=
  frames.map fun frame => (classify frame).getD false

/-- `segment_audio` (segmenter.py lines 54-133) with the external
webrtcvad classifier injected.  The `aggressiveness` argument only
configures that external classifier and is absorbed into `classify`. -/
def segment_audio (classify : List Nat → Option Bool) (pcm_data : List Nat)
    (p : Params) : List Segment :=
  segment_audio_frames p (classifyAll classify (framesOf pcm_data))

/-- `extract_segment_pcm` (segmenter.py lines 136-141):
`pcm_data[start_ms * 32 : end_ms * 32]` with Python slice semantics. -/
def extract_segment_pcm (pcm_data : List Nat) (start_ms end_ms : Nat) : List Nat :=
  let bytes_per_ms := SAMPLE_RATE * 2 / 1000
  (pcm_data.drop (start_ms * bytes_per_ms)).take (end_ms * bytes_per_ms - start_ms * bytes_per_ms)

/-! ## beep_generator.py and practice_builder.py, modelled by byte lengths

`_generate_tone` fills `int(SAMPLE_RATE * duration_ms / 1000)` 16-bit
samples with a sine envelope (floating point); only the packed byte count
matters to the timeline-length law, so tones and silences are modelled by
their lengths. -/

/-- Byte length of `_generate_tone(freq, duration_ms, volume)`
(beep_generator.py lines 21-40): `int(16000 * duration_ms / 1000)` samples
at 2 bytes each. -/
def toneLenBytes (duration_ms : Nat) : Nat := (SAMPLE_RATE * duration_ms / 1000) * 2

/-- Byte length of `_silence(duration_ms)` (identical in beep_generator.py
lines 43-46 and practice_builder.py lines 11-14): `b'\x00\x00'` repeated
`int(16000 * duration_ms / 1000)` times. -/
def silenceLenBytes (duration_ms : Nat) : Nat := (SAMPLE_RATE * duration_ms / 1000) * 2

/-- `BEEP_DURATION_MS = 150` (beep_generator.py). -/
def BEEP_DURATION_MS : Nat := 150

/-- `DOUBLE_BEEP_GAP_MS = 100` (beep_generator.py). -/
def DOUBLE_BEEP_GAP_MS : Nat := 100

/-- Byte length of `playback_beep` (beep_generator.py lines 49-51). -/
def playback_beep_len : Nat := toneLenBytes BEEP_DURATION_MS

/-- Byte length of `your_turn_beep` (beep_generator.py lines 54-58):
beep + gap + beep. -/
def your_turn_beep_len : Nat :=
  toneLenBytes BEEP_DURATION_MS + silenceLenBytes DOUBLE_BEEP_GAP_MS + toneLenBytes BEEP_DURATION_MS

/-- Byte length of `done_beep` (beep_generator.py lines 61-63). -/
def done_beep_len : Nat := toneLenBytes BEEP_DURATION_MS

/-- `PAUSE_AFTER_BEEP_MS = 300` (practice_builder.py). -/
def PAUSE_AFTER_BEEP_MS : Nat := 300

/-- `PAUSE_AFTER_SEGMENT_MS = 300` (practice_builder.py). -/
def PAUSE_AFTER_SEGMENT_MS : Nat := 300

/-- `PAUSE_AFTER_DONE_MS = 500` (practice_builder.py). -/
def PAUSE_AFTER_DONE_MS : Nat := 500

/-- The bytes appended by one iteration of `build_practice_audio`'s
segment loop (practice_builder.py lines 40-60): `playback_repeats` rounds
of beep / pause / segment-slice / pause, then `user_repeats` rounds of
double-beep / pause / silence-of-segment-duration / pause, then the done
beep and its pause. -/
def perSegmentLen (pcm_data : List Nat) (playback_repeats user_repeats : Nat)
    (seg : Segment) : Nat :=
  playback_repeats *
      (playback_beep_len + silenceLenBytes PAUSE_AFTER_BEEP_MS
        + (extract_segment_pcm pcm_data seg.start_ms seg.end_ms).length
        + silenceLenBytes PAUSE_AFTER_SEGMENT_MS)
    + user_repeats *
        (your_turn_beep_len + silenceLenBytes PAUSE_AFTER_BEEP_MS
          + silenceLenBytes seg.duration_ms + silenceLenBytes PAUSE_AFTER_SEGMENT_MS)
    + done_beep_len + silenceLenBytes PAUSE_AFTER_DONE_MS

/-- Total byte length of the buffer assembled by `build_practice_audio`
(practice_builder.py lines 17-62): the source extends one bytearray in
segment order, so the total length is the fold of the per-segment
appended lengths. -/
def build_practice_audio_len (pcm_data : List Nat) (segments : List Segment)
    (playback_repeats : Nat := 2) (user_repeats : Nat := 1) : Nat :=
  segments.foldl
    (fun acc seg => acc + perSegmentLen pcm_data playback_repeats user_repeats seg)
    0

/-! ## Subtitle alignment (segmenter.py lines 144-182) -/

/-- A caption record `{start_ms, end_ms, text}` as consumed by the
aligners. -/
structure Caption where
  start_ms : Nat
  end_ms : Nat
  text : String
deriving DecidableEq, Repr

/-- `max(0, min(seg.end_ms, sub.end_ms) - max(seg.start_ms, sub.start_ms))`
(segmenter.py lines 150-152); `Nat` subtraction supplies the clamp at 0. -/
def overlapOf (seg : Segment) (sub : Caption) : Nat :=
  min seg.end_ms sub.end_ms - max seg.start_ms sub.start_ms

/-- The inner caption scan shared by both aligners (segmenter.py lines
147-155): fold `(best_overlap, best_text)` over the captions, updating on
a strict improvement. -/
def bestPair (seg : Segment) (subs : List Caption) : Nat × String :=
  subs.foldl
    (fun best sub =>
      if best.1 < overlapOf seg sub then (overlapOf seg sub, sub.text) else best)
    (0, "")

/-- The per-segment body of `align_subtitles` (segmenter.py lines 146-157):
assign the best text only when the best overlap is positive. -/
def alignSeg (seg : Segment) (subs : List Caption) : Segment :=
  let best := bestPair seg subs
  if 0 < best.1 then { seg with text := best.2 } else seg

/-- `align_subtitles` (segmenter.py lines 144-158); the in-place mutation
of each segment becomes a map. -/
def align_subtitles (segments : List Segment) (subtitles : List Caption) : List Segment :=
  segments.map fun seg => alignSeg seg subtitles

/-- Ordered-dict lookup on the `texts` association list. -/
def lookupTexts (k : String) : List (String × String) → Option String
  | [] => none
  | (k2, v) :: rest => if k2 = k then some v else lookupTexts k rest

/-- Python-dict assignment `d[k] = v` on an insertion-ordered association
list: update in place if the key exists, else append. -/
def dictInsert (k v : String) : List (String × String) → List (String × String)
  | [] => [(k, v)]
  | (k2, v2) :: rest => if k2 = k then (k, v) :: rest else (k2, v2) :: dictInsert k v rest

/-- The per-segment body of one language pass of `align_all_subtitles`
(segmenter.py lines 164-175). -/
def alignSegLang (lang : String) (subs : List Caption) (seg : Segment) : Segment :=
  let best := bestPair seg subs
  if 0 < best.1 then { seg with texts := dictInsert lang best.2 seg.texts } else seg

/-- `align_all_subtitles` (segmenter.py lines 161-182): one pass per
language of the insertion-ordered subtitle dict, then `text` is populated
from the first language (`next(iter(subtitles))`) when present. -/
def align_all_subtitles (segments : List Segment)
    (subtitles : List (String × List Caption)) : List Segment :=
  let segs := subtitles.foldl (fun segs ls => segs.map (alignSegLang ls.1 ls.2)) segments
  match subtitles with
  | [] => segs
  | (first_lang, _) :: _ =>
    segs.map fun seg =>
      match lookupTexts first_lang seg.texts with
      | some t => { seg with text := t }
      | none => seg

/-- Specification-side reading of the overlap rule (§4.3 of the spec): the
greatest overlap any caption attains against the segment. -/
def maxOverlap (seg : Segment) (subs : List Caption) : Nat :=
  subs.foldl (fun m sub => max m (overlapOf seg sub)) 0

/-- Specification-side reading of the assignment rule: the text of the
first caption (in list order) attaining the greatest overlap, when that
overlap is positive; otherwise the text is left as it was. -/
def alignSpec (seg : Segment) (subs : List Caption) : Segment :=
  if 0 < maxOverlap seg subs then
    { seg with
      text := ((subs.find? fun sub => overlapOf seg sub == maxOverlap seg subs).map
        Caption.text).getD seg.text }
  else
    seg

/-- The text a segment list holds for a language at position `k`, read off
through the `texts` map. -/
def alignedTextFor (segs : List Segment) (k : Nat) (lang : String) : Option String :=
  (segs[k]?).bind fun seg => lookupTexts lang seg.texts

/-! ## Detector invariants

A single induction over the frame loop establishes every structural fact
the claims need: segment bounds, strictly increasing starts, the `max_ms`
bound on hysteresis-closed segments, and the trailing-silence-run shape at
a hysteresis close. -/

/-- Facts shared by all four named presets, in the derived frame units the
detector works with. -/
def ValidParams (p : Params) : Prop :=
  2 ≤ silenceFrames p ∧
  preBufferFrames p ≤ silenceFrames p ∧
  (preBufferFrames p + 1) * FRAME_DURATION_MS ≤ p.max_ms ∧
  1 ≤ p.min_ms

theorem presets_validParams {name : String} {p : Params} (h : PRESETS name = some p) :
    ValidParams p := by
  unfold PRESETS at h
  split_ifs at h <;> injection h with h2 <;> subst h2 <;>
    exact ⟨by decide, by decide, by decide, by decide⟩

/-- What holds of a segment closed by the hysteresis rule: its duration
is bounded by `max_ms`, and its end sits at the onset of a trailing
silence run — the frame before the boundary is speech and at least
`silenceFrames p` non-speech frames follow the boundary. -/
def HystFacts (p : Params) (d : List Bool) (sk : Segment × CloseKind) : Prop :=
  sk.2 = CloseKind.hysteresis →
    sk.1.end_ms - sk.1.start_ms ≤ p.max_ms ∧
    ∃ eF, sk.1.end_ms = eF * FRAME_DURATION_MS ∧ 1 ≤ eF ∧
      d[eF - 1]? = some true ∧
      ∀ j, eF ≤ j → j < eF + silenceFrames p → d[j]? = some false

/-- The loop invariant of the frame scan: `i` frames of the decision list
`d` have been consumed. -/
structure Inv (p : Params) (d : List Bool) (i : Nat) (st : DetState) : Prop where
  pw : st.segments.Pairwise fun a b => a.1.start_ms < b.1.start_ms
  bounds : ∀ sk ∈ st.segments,
    sk.1.start_ms < sk.1.end_ms ∧ sk.1.end_ms ≤ i * FRAME_DURATION_MS
  hystF : ∀ sk ∈ st.segments, HystFacts p d sk
  idle : st.in_speech = false →
    ∀ sk ∈ st.segments,
      sk.1.start_ms + (preBufferFrames p + 1) * FRAME_DURATION_MS ≤ i * FRAME_DURATION_MS
  spLt : st.in_speech = true → st.speech_start + st.silence_count + 1 ≤ i
  spStarts : st.in_speech = true →
    ∀ sk ∈ st.segments,
      sk.1.start_ms + FRAME_DURATION_MS ≤ st.speech_start * FRAME_DURATION_MS
  spZero : st.in_speech = true → st.silence_count = 0 → 1 ≤ i ∧ d[i - 1]? = some true
  spRun : st.in_speech = true → 1 ≤ st.silence_count →
    1 ≤ i - st.silence_count ∧
    d[i - st.silence_count - 1]? = some true ∧
    (∀ j, i - st.silence_count ≤ j → j < i → d[j]? = some false) ∧
    (i - st.silence_count - st.speech_start) * FRAME_DURATION_MS < p.max_ms

theorem inv_init (p : Params) (d : List Bool) : Inv p d 0 ⟨[], false, 0, 0⟩ := by
  refine ⟨?_, ?_, ?_, ?_, ?_, ?_, ?_, ?_⟩ <;> simp

theorem stepFrame_speech_in {p : Params} {i : Nat} {st : DetState}
    (hsp : st.in_speech = true) :
    stepFrame p i true st = { st with silence_count := 0 } := by
  simp [stepFrame, hsp]

theorem stepFrame_speech_out {p : Params} {i : Nat} {st : DetState}
    (hsp : st.in_speech = false) :
    stepFrame p i true st =
      { st with in_speech := true, speech_start := i - preBufferFrames p,
                silence_count := 0 } := by
  simp [stepFrame, hsp]

theorem stepFrame_sil_out {p : Params} {i : Nat} {st : DetState}
    (hsp : st.in_speech = false) :
    stepFrame p i false st = st := by
  simp [stepFrame, hsp]

theorem stepFrame_sil_close1 {p : Params} {i : Nat} {st : DetState}
    (hsp : st.in_speech = true)
    (hc1 : silenceFrames p ≤ st.silence_count + 1 ∧
      p.min_ms ≤ (i - st.speech_start) * FRAME_DURATION_MS) :
    stepFrame p i false st =
      { st with
        segments := st.segments ++
          [({ start_ms := st.speech_start * FRAME_DURATION_MS,
              end_ms := (i - (st.silence_count + 1) + 1) * FRAME_DURATION_MS },
            CloseKind.hysteresis)],
        in_speech := false, silence_count := 0 } := by
  simp [stepFrame, hsp, hc1.1, hc1.2]

theorem stepFrame_sil_close2 {p : Params} {i : Nat} {st : DetState}
    (hsp : st.in_speech = true)
    (hc1 : ¬ (silenceFrames p ≤ st.silence_count + 1 ∧
      p.min_ms ≤ (i - st.speech_start) * FRAME_DURATION_MS))
    (hc2 : p.max_ms ≤ (i - st.speech_start) * FRAME_DURATION_MS) :
    stepFrame p i false st =
      { st with
        segments := st.segments ++
          [({ start_ms := st.speech_start * FRAME_DURATION_MS,
              end_ms := i * FRAME_DURATION_MS }, CloseKind.forced)],
        in_speech := false, silence_count := 0 } := by
  simp only [stepFrame, hsp]
  rw [if_neg (by simp), if_neg hc1, if_pos hc2]
  simp

theorem stepFrame_sil_stay {p : Params} {i : Nat} {st : DetState}
    (hsp : st.in_speech = true)
    (hc1 : ¬ (silenceFrames p ≤ st.silence_count + 1 ∧
      p.min_ms ≤ (i - st.speech_start) * FRAME_DURATION_MS))
    (hc2 : ¬ p.max_ms ≤ (i - st.speech_start) * FRAME_DURATION_MS) :
    stepFrame p i false st = { st with silence_count := st.silence_count + 1 } := by
  simp only [stepFrame, hsp]
  rw [if_neg (by simp), if_neg hc1, if_neg hc2]
  simp

theorem mul30_mono {x i : Nat} (h : x ≤ i * FRAME_DURATION_MS) :
    x ≤ (i + 1) * FRAME_DURATION_MS := by
  simp only [FRAME_DURATION_MS] at *
  omega

theorem inv_speech_in {p : Params} {d : List Bool} {i : Nat} {st : DetState}
    (h : Inv p d i st) (hsp : st.in_speech = true) (hd : d[i]? = some true) :
    Inv p d (i + 1) { st with silence_count := 0 } := by
  obtain ⟨pw, bounds, hystF, idle, spLt, spStarts, spZero, spRun⟩ := h
  obtain ⟨segs, insp, s, c⟩ := st
  subst hsp
  refine ⟨pw, ?_, hystF, ?_, ?_, ?_, ?_, ?_⟩
  · intro sk hsk
    obtain ⟨h1, h2⟩ := bounds sk hsk
    exact ⟨h1, mul30_mono h2⟩
  · intro h0
    cases h0
  · intro _
    have h2 : s + c + 1 ≤ i := spLt (by trivial)
    show s + 0 + 1 ≤ i + 1
    omega
  · intro _
    show ∀ sk ∈ segs, sk.1.start_ms + FRAME_DURATION_MS ≤ s * FRAME_DURATION_MS
    exact spStarts (by trivial)
  · intro _ _
    exact ⟨by omega, by simpa using hd⟩
  · intro _ h0
    have h0x : (1 : Nat) ≤ 0 := h0
    omega

theorem inv_speech_out {p : Params} {d : List Bool} {i : Nat} {st : DetState}
    (h : Inv p d i st) (hsp : st.in_speech = false) (hd : d[i]? = some true) :
    Inv p d (i + 1)
      { st with in_speech := true, speech_start := i - preBufferFrames p,
                silence_count := 0 } := by
  obtain ⟨pw, bounds, hystF, idle, spLt, spStarts, spZero, spRun⟩ := h
  obtain ⟨segs, insp, s, c⟩ := st
  subst hsp
  refine ⟨pw, ?_, hystF, ?_, ?_, ?_, ?_, ?_⟩
  · intro sk hsk
    obtain ⟨h1, h2⟩ := bounds sk hsk
    exact ⟨h1, mul30_mono h2⟩
  · intro h0
    cases h0
  · intro _
    show (i - preBufferFrames p) + 0 + 1 ≤ i + 1
    omega
  · intro _ sk hsk
    have h2 := idle (by trivial) sk hsk
    show sk.1.start_ms + FRAME_DURATION_MS ≤ (i - preBufferFrames p) * FRAME_DURATION_MS
    simp only [FRAME_DURATION_MS] at h2 ⊢
    omega
  · intro _ _
    exact ⟨by omega, by simpa using hd⟩
  · intro _ h0
    have h0x : (1 : Nat) ≤ 0 := h0
    omega

theorem inv_sil_out {p : Params} {d : List Bool} {i : Nat} {st : DetState}
    (h : Inv p d i st) (hsp : st.in_speech = false) :
    Inv p d (i + 1) st := by
  obtain ⟨pw, bounds, hystF, idle, spLt, spStarts, spZero, spRun⟩ := h
  obtain ⟨segs, insp, s, c⟩ := st
  subst hsp
  refine ⟨pw, ?_, hystF, ?_, ?_, ?_, ?_, ?_⟩
  · intro sk hsk
    obtain ⟨h1, h2⟩ := bounds sk hsk
    exact ⟨h1, mul30_mono h2⟩
  · intro _ sk hsk
    exact mul30_mono (idle (by trivial) sk hsk)
  · intro h0
    cases h0
  · intro h0
    cases h0
  · intro h0
    cases h0
  · intro h0
    cases h0

theorem inv_sil_close1 {p : Params} {d : List Bool} {i : Nat} {st : DetState}
    (hsf2 : 2 ≤ silenceFrames p) (hpbsf : preBufferFrames p ≤ silenceFrames p)
    (h : Inv p d i st) (hsp : st.in_speech = true) (hd : d[i]? = some false)
    (hc1 : silenceFrames p ≤ st.silence_count + 1 ∧
      p.min_ms ≤ (i - st.speech_start) * FRAME_DURATION_MS) :
    Inv p d (i + 1)
      { st with
        segments := st.segments ++
          [({ start_ms := st.speech_start * FRAME_DURATION_MS,
              end_ms := (i - (st.silence_count + 1) + 1) * FRAME_DURATION_MS },
            CloseKind.hysteresis)],
        in_speech := false, silence_count := 0 } := by
  obtain ⟨pw, bounds, hystF, idle, spLt, spStarts, spZero, spRun⟩ := h
  obtain ⟨segs, insp, s, c⟩ := st
  subst hsp
  have hLt : s + c + 1 ≤ i := spLt (by trivial)
  have hc1a : silenceFrames p ≤ c + 1 := hc1.1
  have hcpos : 1 ≤ c := by omega
  have hr1x : 1 ≤ i - c := (spRun (by trivial) hcpos).1
  have hr2x : d[i - c - 1]? = some true := (spRun (by trivial) hcpos).2.1
  have hr3x : ∀ j, i - c ≤ j → j < i → d[j]? = some false := (spRun (by trivial) hcpos).2.2.1
  have hr4x : (i - c - s) * FRAME_DURATION_MS < p.max_ms := (spRun (by trivial) hcpos).2.2.2
  refine ⟨?_, ?_, ?_, ?_, ?_, ?_, ?_, ?_⟩
  · refine List.pairwise_append.mpr ⟨pw, by simp, ?_⟩
    intro x hx y hy
    have hy2 := List.mem_singleton.mp hy
    subst hy2
    have h3x : x.1.start_ms + FRAME_DURATION_MS ≤ s * FRAME_DURATION_MS :=
      spStarts (by trivial) x hx
    show x.1.start_ms < s * FRAME_DURATION_MS
    simp only [FRAME_DURATION_MS] at h3x ⊢
    omega
  · intro sk hsk
    rcases List.mem_append.mp hsk with hin | hnew
    · obtain ⟨h1, h2⟩ := bounds sk hin
      exact ⟨h1, mul30_mono h2⟩
    · have hsk2 := List.mem_singleton.mp hnew
      subst hsk2
      constructor
      · show s * FRAME_DURATION_MS < (i - (c + 1) + 1) * FRAME_DURATION_MS
        simp only [FRAME_DURATION_MS]
        omega
      · show (i - (c + 1) + 1) * FRAME_DURATION_MS ≤ (i + 1) * FRAME_DURATION_MS
        simp only [FRAME_DURATION_MS]
        omega
  · intro sk hsk
    rcases List.mem_append.mp hsk with hin | hnew
    · exact hystF sk hin
    · have hsk2 := List.mem_singleton.mp hnew
      subst hsk2
      intro _
      constructor
      · show (i - (c + 1) + 1) * FRAME_DURATION_MS - s * FRAME_DURATION_MS ≤ p.max_ms
        simp only [FRAME_DURATION_MS] at hr4x ⊢
        omega
      · refine ⟨i - (c + 1) + 1, rfl, by omega, ?_, ?_⟩
        · have hidx : i - (c + 1) + 1 - 1 = i - c - 1 := by omega
          rw [hidx]
          exact hr2x
        · intro j hj1 hj2
          by_cases hji : j = i
          · subst hji
            exact hd
          · refine hr3x j (by omega) (by omega)
  · intro _ sk hsk
    rcases List.mem_append.mp hsk with hin | hnew
    · have h3x : sk.1.start_ms + FRAME_DURATION_MS ≤ s * FRAME_DURATION_MS :=
        spStarts (by trivial) sk hin
      show sk.1.start_ms + (preBufferFrames p + 1) * FRAME_DURATION_MS ≤
        (i + 1) * FRAME_DURATION_MS
      have hpb : preBufferFrames p ≤ c + 1 := le_trans hpbsf hc1a
      simp only [FRAME_DURATION_MS] at h3x ⊢
      omega
    · have hsk2 := List.mem_singleton.mp hnew
      subst hsk2
      show s * FRAME_DURATION_MS + (preBufferFrames p + 1) * FRAME_DURATION_MS ≤
        (i + 1) * FRAME_DURATION_MS
      have hpb : preBufferFrames p ≤ c + 1 := le_trans hpbsf hc1a
      simp only [FRAME_DURATION_MS]
      omega
  · intro h0
    cases h0
  · intro h0
    cases h0
  · intro h0
    cases h0
  · intro h0
    cases h0

theorem inv_sil_close2 {p : Params} {d : List Bool} {i : Nat} {st : DetState}
    (hpbmax : (preBufferFrames p + 1) * FRAME_DURATION_MS ≤ p.max_ms)
    (h : Inv p d i st) (hsp : st.in_speech = true) (_hd : d[i]? = some false)
    (hc2 : p.max_ms ≤ (i - st.speech_start) * FRAME_DURATION_MS) :
    Inv p d (i + 1)
      { st with
        segments := st.segments ++
          [({ start_ms := st.speech_start * FRAME_DURATION_MS,
              end_ms := i * FRAME_DURATION_MS }, CloseKind.forced)],
        in_speech := false, silence_count := 0 } := by
  obtain ⟨pw, bounds, hystF, idle, spLt, spStarts, spZero, spRun⟩ := h
  obtain ⟨segs, insp, s, c⟩ := st
  subst hsp
  have hLt : s + c + 1 ≤ i := spLt (by trivial)
  have hc2x : p.max_ms ≤ (i - s) * FRAME_DURATION_MS := hc2
  have hsd : preBufferFrames p + 1 ≤ i - s := by
    simp only [FRAME_DURATION_MS] at hpbmax hc2x
    omega
  refine ⟨?_, ?_, ?_, ?_, ?_, ?_, ?_, ?_⟩
  · refine List.pairwise_append.mpr ⟨pw, by simp, ?_⟩
    intro x hx y hy
    have hy2 := List.mem_singleton.mp hy
    subst hy2
    have h3x : x.1.start_ms + FRAME_DURATION_MS ≤ s * FRAME_DURATION_MS :=
      spStarts (by trivial) x hx
    show x.1.start_ms < s * FRAME_DURATION_MS
    simp only [FRAME_DURATION_MS] at h3x ⊢
    omega
  · intro sk hsk
    rcases List.mem_append.mp hsk with hin | hnew
    · obtain ⟨h1, h2⟩ := bounds sk hin
      exact ⟨h1, mul30_mono h2⟩
    · have hsk2 := List.mem_singleton.mp hnew
      subst hsk2
      constructor
      · show s * FRAME_DURATION_MS < i * FRAME_DURATION_MS
        simp only [FRAME_DURATION_MS]
        omega
      · show i * FRAME_DURATION_MS ≤ (i + 1) * FRAME_DURATION_MS
        simp only [FRAME_DURATION_MS]
        omega
  · intro sk hsk
    rcases List.mem_append.mp hsk with hin | hnew
    · exact hystF sk hin
    · have hsk2 := List.mem_singleton.mp hnew
      subst hsk2
      intro hk
      cases hk
  · intro _ sk hsk
    rcases List.mem_append.mp hsk with hin | hnew
    · have h3x : sk.1.start_ms + FRAME_DURATION_MS ≤ s * FRAME_DURATION_MS :=
        spStarts (by trivial) sk hin
      show sk.1.start_ms + (preBufferFrames p + 1) * FRAME_DURATION_MS ≤
        (i + 1) * FRAME_DURATION_MS
      simp only [FRAME_DURATION_MS] at h3x ⊢
      omega
    · have hsk2 := List.mem_singleton.mp hnew
      subst hsk2
      show s * FRAME_DURATION_MS + (preBufferFrames p + 1) * FRAME_DURATION_MS ≤
        (i + 1) * FRAME_DURATION_MS
      simp only [FRAME_DURATION_MS]
      omega
  · intro h0
    cases h0
  · intro h0
    cases h0
  · intro h0
    cases h0
  · intro h0
    cases h0

theorem inv_sil_stay {p : Params} {d : List Bool} {i : Nat} {st : DetState}
    (h : Inv p d i st) (hsp : st.in_speech = true) (hd : d[i]? = some false)
    (hc2 : ¬ p.max_ms ≤ (i - st.speech_start) * FRAME_DURATION_MS) :
    Inv p d (i + 1) { st with silence_count := st.silence_count + 1 } := by
  obtain ⟨pw, bounds, hystF, idle, spLt, spStarts, spZero, spRun⟩ := h
  obtain ⟨segs, insp, s, c⟩ := st
  subst hsp
  have hLt : s + c + 1 ≤ i := spLt (by trivial)
  have hc2x : (i - s) * FRAME_DURATION_MS < p.max_ms := by
    have hx : ¬ p.max_ms ≤ (i - s) * FRAME_DURATION_MS := hc2
    omega
  refine ⟨pw, ?_, hystF, ?_, ?_, ?_, ?_, ?_⟩
  · intro sk hsk
    obtain ⟨h1, h2⟩ := bounds sk hsk
    exact ⟨h1, mul30_mono h2⟩
  · intro h0
    cases h0
  · intro _
    show s + (c + 1) + 1 ≤ i + 1
    omega
  · intro _
    show ∀ sk ∈ segs, sk.1.start_ms + FRAME_DURATION_MS ≤ s * FRAME_DURATION_MS
    exact spStarts (by trivial)
  · intro _ h0
    have h0x : c + 1 = 0 := h0
    omega
  · intro _ _
    show 1 ≤ i + 1 - (c + 1) ∧
      d[i + 1 - (c + 1) - 1]? = some true ∧
      (∀ j, i + 1 - (c + 1) ≤ j → j < i + 1 → d[j]? = some false) ∧
      (i + 1 - (c + 1) - s) * FRAME_DURATION_MS < p.max_ms
    rcases Nat.eq_zero_or_pos c with hc0 | hcpos
    · subst hc0
      have hz : 1 ≤ i ∧ d[i - 1]? = some true := spZero (by trivial) rfl
      refine ⟨by omega, ?_, ?_, ?_⟩
      · have hidx : i + 1 - (0 + 1) - 1 = i - 1 := by omega
        rw [hidx]
        exact hz.2
      · intro j hj1 hj2
        by_cases hji : j = i
        · subst hji
          exact hd
        · exfalso
          omega
      · have hidx : i + 1 - (0 + 1) - s = i - s := by omega
        rw [hidx]
        exact hc2x
    · have hr1x : 1 ≤ i - c := (spRun (by trivial) hcpos).1
      have hr2x : d[i - c - 1]? = some true := (spRun (by trivial) hcpos).2.1
      have hr3x : ∀ j, i - c ≤ j → j < i → d[j]? = some false :=
        (spRun (by trivial) hcpos).2.2.1
      have hr4x : (i - c - s) * FRAME_DURATION_MS < p.max_ms := (spRun (by trivial) hcpos).2.2.2
      refine ⟨by omega, ?_, ?_, ?_⟩
      · have hidx : i + 1 - (c + 1) - 1 = i - c - 1 := by omega
        rw [hidx]
        exact hr2x
      · intro j hj1 hj2
        by_cases hji : j = i
        · subst hji
          exact hd
        · refine hr3x j (by omega) (by omega)
      · have hidx : i + 1 - (c + 1) - s = i - c - s := by omega
        rw [hidx]
        exact hr4x

theorem stepFrame_inv {p : Params} {d : List Bool} (hv : ValidParams p) {i : Nat} {b : Bool}
    {st : DetState} (hd : d[i]? = some b) (h : Inv p d i st) :
    Inv p d (i + 1) (stepFrame p i b st) := by
  obtain ⟨hsf2, hpbsf, hpbmax, hmin1⟩ := hv
  cases b with
  | true =>
    cases hsp : st.in_speech with
    | true =>
      rw [stepFrame_speech_in hsp]
      exact inv_speech_in h hsp hd
    | false =>
      rw [stepFrame_speech_out hsp]
      exact inv_speech_out h hsp hd
  | false =>
    cases hsp : st.in_speech with
    | true =>
      by_cases hc1 : silenceFrames p ≤ st.silence_count + 1 ∧
          p.min_ms ≤ (i - st.speech_start) * FRAME_DURATION_MS
      · rw [stepFrame_sil_close1 hsp hc1]
        exact inv_sil_close1 hsf2 hpbsf h hsp hd hc1
      · by_cases hc2 : p.max_ms ≤ (i - st.speech_start) * FRAME_DURATION_MS
        · rw [stepFrame_sil_close2 hsp hc1 hc2]
          exact inv_sil_close2 hpbmax h hsp hd hc2
        · rw [stepFrame_sil_stay hsp hc1 hc2]
          exact inv_sil_stay h hsp hd hc2
    | false =>
      rw [stepFrame_sil_out hsp]
      exact inv_sil_out h hsp

theorem detectLoop_inv {p : Params} {d : List Bool} (hv : ValidParams p) :
    ∀ (rest : List Bool) (i : Nat) (st : DetState),
      rest = d.drop i → Inv p d i st →
      Inv p d (i + rest.length) (detectLoop p i st rest)
  | [], i, st, _, h => by
    simpa [detectLoop] using h
  | b :: rest, i, st, hrest, h => by
    have hd : d[i]? = some b := by
      have h0 : (d.drop i)[0]? = some b := by
        rw [← hrest]
        simp
      rw [List.getElem?_drop] at h0
      simpa using h0
    have hrest2 : rest = d.drop (i + 1) := by
      have h1 : (d.drop i).drop 1 = d.drop (i + 1) := List.drop_drop 1 i d
      rw [← hrest] at h1
      simpa using h1
    have hstep := stepFrame_inv hv hd h
    have hrec := detectLoop_inv hv rest (i + 1) (stepFrame p i b st) hrest2 hstep
    have hlen : i + 1 + rest.length = i + (b :: rest).length := by
      simp
      omega
    rw [hlen] at hrec
    simpa [detectLoop] using hrec

/-- The master soundness theorem for the detector: on any decision list,
under any of the four presets' parameter shapes, the traced output is
strictly ordered by `start_ms`, every segment is non-empty and ends within
the stream, and every hysteresis-closed segment satisfies `HystFacts`. -/
theorem traced_sound {p : Params} {d : List Bool} (hv : ValidParams p) :
    (segmentAudioTraced p d).Pairwise (fun a b => a.1.start_ms < b.1.start_ms) ∧
    ∀ sk ∈ segmentAudioTraced p d,
      sk.1.start_ms < sk.1.end_ms ∧
      sk.1.end_ms ≤ d.length * FRAME_DURATION_MS ∧
      HystFacts p d sk := by
  have hInv : Inv p d d.length (detectLoop p 0 ⟨[], false, 0, 0⟩ d) := by
    have h0 := detectLoop_inv hv d 0 ⟨[], false, 0, 0⟩ (by simp) (inv_init p d)
    simpa using h0
  obtain ⟨pw, bounds, hystF, idle, spLt, spStarts, spZero, spRun⟩ := hInv
  obtain ⟨hsf2, hpbsf, hpbmax, hmin1⟩ := hv
  unfold segmentAudioTraced flushTrailing
  cases hsp : (detectLoop p 0 ⟨[], false, 0, 0⟩ d).in_speech with
  | false =>
    simp only [hsp, if_false]
    exact ⟨pw, fun sk hsk => ⟨(bounds sk hsk).1, (bounds sk hsk).2, hystF sk hsk⟩⟩
  | true =>
    simp only [hsp, if_true]
    by_cases hm : p.min_ms ≤ d.length * FRAME_DURATION_MS -
        (detectLoop p 0 ⟨[], false, 0, 0⟩ d).speech_start * FRAME_DURATION_MS
    · rw [if_pos hm]
      have hLt := spLt hsp
      constructor
      · refine List.pairwise_append.mpr ⟨pw, by simp, ?_⟩
        intro x hx y hy
        have hy2 := List.mem_singleton.mp hy
        subst hy2
        have h3x := spStarts hsp x hx
        show x.1.start_ms <
          (detectLoop p 0 ⟨[], false, 0, 0⟩ d).speech_start * FRAME_DURATION_MS
        simp only [FRAME_DURATION_MS] at h3x ⊢
        omega
      · intro sk hsk
        rcases List.mem_append.mp hsk with hin | hnew
        · exact ⟨(bounds sk hin).1, (bounds sk hin).2, hystF sk hin⟩
        · have hsk2 := List.mem_singleton.mp hnew
          subst hsk2
          refine ⟨?_, le_refl _, ?_⟩
          · show (detectLoop p 0 ⟨[], false, 0, 0⟩ d).speech_start * FRAME_DURATION_MS <
              d.length * FRAME_DURATION_MS
            simp only [FRAME_DURATION_MS] at hm ⊢
            omega
          · intro hk
            cases hk
    · rw [if_neg hm]
      exact ⟨pw, fun sk hsk => ⟨(bounds sk hsk).1, (bounds sk hsk).2, hystF sk hsk⟩⟩

/-! ## Characterization of the best-overlap fold -/

theorem maxOverlap_go_le (seg : Segment) :
    ∀ (subs : List Caption) (b : Nat),
      b ≤ subs.foldl (fun m sub => max m (overlapOf seg sub)) b
  | [], _ => le_refl _
  | c :: rest, b =>
    le_trans (le_max_left b (overlapOf seg c)) (maxOverlap_go_le seg rest _)

theorem bestPair_go_stay (seg : Segment) :
    ∀ (subs : List Caption) (b : Nat) (t : String),
      subs.foldl (fun m sub => max m (overlapOf seg sub)) b ≤ b →
      subs.foldl
        (fun best sub =>
          if best.1 < overlapOf seg sub then (overlapOf seg sub, sub.text) else best)
        (b, t) = (b, t)
  | [], _, _, _ => rfl
  | c :: rest, b, t, hle => by
    have hcb : overlapOf seg c ≤ b := by
      have h1 := maxOverlap_go_le seg rest (max b (overlapOf seg c))
      simp only [List.foldl_cons] at hle
      omega
    have hmax : max b (overlapOf seg c) = b := by omega
    simp only [List.foldl_cons, if_neg (by omega : ¬ b < overlapOf seg c)]
    refine bestPair_go_stay seg rest b t ?_
    simp only [List.foldl_cons, hmax] at hle
    exact hle

theorem bestPair_go_fst (seg : Segment) :
    ∀ (subs : List Caption) (b : Nat) (t : String),
      (subs.foldl
        (fun best sub =>
          if best.1 < overlapOf seg sub then (overlapOf seg sub, sub.text) else best)
        (b, t)).1 =
      subs.foldl (fun m sub => max m (overlapOf seg sub)) b
  | [], _, _ => rfl
  | c :: rest, b, t => by
    simp only [List.foldl_cons]
    by_cases hlt : b < overlapOf seg c
    · rw [if_pos hlt, bestPair_go_fst seg rest]
      congr 1
      omega
    · rw [if_neg hlt, bestPair_go_fst seg rest]
      congr 1
      omega

theorem bestPair_go_snd (seg : Segment) :
    ∀ (subs : List Caption) (b : Nat) (t : String),
      b < subs.foldl (fun m sub => max m (overlapOf seg sub)) b →
      (subs.find? fun sub =>
          overlapOf seg sub == subs.foldl (fun m sub => max m (overlapOf seg sub)) b).map
        Caption.text =
      some (subs.foldl
        (fun best sub =>
          if best.1 < overlapOf seg sub then (overlapOf seg sub, sub.text) else best)
        (b, t)).2
  | [], b, t, hlt => absurd hlt (by simp)
  | c :: rest, b, t, hlt => by
    simp only [List.foldl_cons] at hlt ⊢
    by_cases hcb : b < overlapOf seg c
    · rw [if_pos hcb]
      have hmax : max b (overlapOf seg c) = overlapOf seg c := by omega
      rw [hmax] at hlt ⊢
      by_cases hM : overlapOf seg c <
          rest.foldl (fun m sub => max m (overlapOf seg sub)) (overlapOf seg c)
      · have hrec := bestPair_go_snd seg rest (overlapOf seg c) c.text hM
        rw [List.find?_cons_of_neg _ (by simp only [beq_iff_eq]; omega)]
        exact hrec
      · have hle : rest.foldl (fun m sub => max m (overlapOf seg sub)) (overlapOf seg c) ≤
            overlapOf seg c := by
          have h1 := maxOverlap_go_le seg rest (overlapOf seg c)
          omega
        have heq : rest.foldl (fun m sub => max m (overlapOf seg sub)) (overlapOf seg c) =
            overlapOf seg c := le_antisymm hle (maxOverlap_go_le seg rest _)
        rw [heq, bestPair_go_stay seg rest (overlapOf seg c) c.text (by omega)]
        rw [List.find?_cons_of_pos _ (by simp)]
        simp
    · rw [if_neg hcb]
      have hmax : max b (overlapOf seg c) = b := by omega
      rw [hmax] at hlt ⊢
      have hrec := bestPair_go_snd seg rest b t hlt
      have h1 := maxOverlap_go_le seg rest b
      rw [List.find?_cons_of_neg _ (by simp only [beq_iff_eq]; omega)]
      exact hrec

theorem bestPair_fst (seg : Segment) (subs : List Caption) :
    (bestPair seg subs).1 = maxOverlap seg subs :=
  bestPair_go_fst seg subs 0 ""

theorem bestPair_snd (seg : Segment) (subs : List Caption) (h : 0 < maxOverlap seg subs) :
    (subs.find? fun sub => overlapOf seg sub == maxOverlap seg subs).map Caption.text =
      some (bestPair seg subs).2 :=
  bestPair_go_snd seg subs 0 "" h

theorem alignSeg_eq_alignSpec (seg : Segment) (subs : List Caption) :
    alignSeg seg subs = alignSpec seg subs := by
  have hfst := bestPair_fst seg subs
  by_cases h0 : 0 < maxOverlap seg subs
  · have hsnd := bestPair_snd seg subs h0
    simp only [alignSeg, alignSpec, hfst, if_pos h0]
    rw [hsnd]
    simp
  · simp only [alignSeg, alignSpec, hfst, if_neg h0]

/-! ## Per-language alignment facts for `align_all_subtitles` -/

theorem lookupTexts_dictInsert_self (k v : String) :
    ∀ l : List (String × String), lookupTexts k (dictInsert k v l) = some v
  | [] => by simp [dictInsert, lookupTexts]
  | (k2, v2) :: rest => by
    by_cases hk : k2 = k
    · subst hk
      simp [dictInsert, lookupTexts]
    · simp [dictInsert, lookupTexts, hk, lookupTexts_dictInsert_self k v rest]

theorem lookupTexts_dictInsert_ne {k k2 : String} (hne : k ≠ k2) (v : String) :
    ∀ l : List (String × String), lookupTexts k2 (dictInsert k v l) = lookupTexts k2 l
  | [] => by simp [dictInsert, lookupTexts, hne]
  | (k3, v3) :: rest => by
    by_cases hk : k3 = k
    · subst hk
      simp [dictInsert, lookupTexts, hne]
    · by_cases hk2 : k3 = k2
      · subst hk2
        simp [dictInsert, lookupTexts, hk]
      · simp [dictInsert, lookupTexts, hk, hk2, lookupTexts_dictInsert_ne hne v rest]

theorem alignSegLang_start (lang : String) (subs : List Caption) (seg : Segment) :
    (alignSegLang lang subs seg).start_ms = seg.start_ms := by
  unfold alignSegLang
  by_cases h : 0 < (bestPair seg subs).1 <;> simp [h]

theorem alignSegLang_end (lang : String) (subs : List Caption) (seg : Segment) :
    (alignSegLang lang subs seg).end_ms = seg.end_ms := by
  unfold alignSegLang
  by_cases h : 0 < (bestPair seg subs).1 <;> simp [h]

theorem alignSegLang_lookup_ne {lang l2 : String} (hne : lang ≠ l2)
    (subs : List Caption) (seg : Segment) :
    lookupTexts l2 (alignSegLang lang subs seg).texts = lookupTexts l2 seg.texts := by
  unfold alignSegLang
  by_cases h : 0 < (bestPair seg subs).1 <;>
    simp [h, lookupTexts_dictInsert_ne hne]

theorem alignSegLang_lookup_self (lang : String) (subs : List Caption) (seg : Segment) :
    lookupTexts lang (alignSegLang lang subs seg).texts =
      if 0 < maxOverlap seg subs then some (bestPair seg subs).2
      else lookupTexts lang seg.texts := by
  have hfst := bestPair_fst seg subs
  unfold alignSegLang
  by_cases h0 : 0 < maxOverlap seg subs
  · simp [hfst, h0, lookupTexts_dictInsert_self]
  · simp [hfst, h0]

theorem overlapOf_congr {a b : Segment} (hs : a.start_ms = b.start_ms)
    (he : a.end_ms = b.end_ms) (sub : Caption) : overlapOf a sub = overlapOf b sub := by
  simp [overlapOf, hs, he]

theorem maxOverlap_go_congr {a b : Segment} (hs : a.start_ms = b.start_ms)
    (he : a.end_ms = b.end_ms) :
    ∀ (subs : List Caption) (m : Nat),
      subs.foldl (fun m sub => max m (overlapOf a sub)) m =
      subs.foldl (fun m sub => max m (overlapOf b sub)) m
  | [], _ => rfl
  | c :: rest, m => by
    simp only [List.foldl_cons, overlapOf_congr hs he c]
    exact maxOverlap_go_congr hs he rest _

theorem maxOverlap_congr {a b : Segment} (hs : a.start_ms = b.start_ms)
    (he : a.end_ms = b.end_ms) (subs : List Caption) :
    maxOverlap a subs = maxOverlap b subs :=
  maxOverlap_go_congr hs he subs 0

theorem bestPair_go_congr {a b : Segment} (hs : a.start_ms = b.start_ms)
    (he : a.end_ms = b.end_ms) :
    ∀ (subs : List Caption) (acc : Nat × String),
      subs.foldl
        (fun best sub =>
          if best.1 < overlapOf a sub then (overlapOf a sub, sub.text) else best) acc =
      subs.foldl
        (fun best sub =>
          if best.1 < overlapOf b sub then (overlapOf b sub, sub.text) else best) acc
  | [], _ => rfl
  | c :: rest, acc => by
    simp only [List.foldl_cons, overlapOf_congr hs he c]
    exact bestPair_go_congr hs he rest _

theorem bestPair_congr {a b : Segment} (hs : a.start_ms = b.start_ms)
    (he : a.end_ms = b.end_ms) (subs : List Caption) :
    bestPair a subs = bestPair b subs :=
  bestPair_go_congr hs he subs (0, "")

theorem foldPasses_preserve (lang : String) :
    ∀ (subtitles : List (String × List Caption)) (segs : List Segment) (k : Nat)
      (seg : Segment),
      lang ∉ subtitles.map Prod.fst → segs[k]? = some seg →
      ∃ seg2,
        (subtitles.foldl (fun segs ls => segs.map (alignSegLang ls.1 ls.2)) segs)[k]? =
          some seg2 ∧
        seg2.start_ms = seg.start_ms ∧ seg2.end_ms = seg.end_ms ∧
        lookupTexts lang seg2.texts = lookupTexts lang seg.texts
  | [], segs, k, seg, _, hk => ⟨seg, hk, rfl, rfl, rfl⟩
  | (l0, s0) :: rest, segs, k, seg, hnmem, hk => by
    have hne : l0 ≠ lang := by
      intro hx
      exact hnmem (by simp [hx])
    have hk2 : (segs.map (alignSegLang l0 s0))[k]? = some (alignSegLang l0 s0 seg) := by
      rw [List.getElem?_map, hk]
      rfl
    have hnmem2 : lang ∉ rest.map Prod.fst := by
      intro hx
      exact hnmem (by simp [hx])
    obtain ⟨seg2, h1, h2, h3, h4⟩ :=
      foldPasses_preserve lang rest (segs.map (alignSegLang l0 s0)) k
        (alignSegLang l0 s0 seg) hnmem2 hk2
    refine ⟨seg2, h1, ?_, ?_, ?_⟩
    · rw [h2, alignSegLang_start]
    · rw [h3, alignSegLang_end]
    · rw [h4, alignSegLang_lookup_ne hne]

theorem foldPasses_lookup (lang : String) (subs : List Caption) :
    ∀ (subtitles : List (String × List Caption)) (segs : List Segment) (k : Nat)
      (seg : Segment),
      (subtitles.map Prod.fst).Nodup →
      (lang, subs) ∈ subtitles →
      segs[k]? = some seg →
      ∃ seg2,
        (subtitles.foldl (fun segs ls => segs.map (alignSegLang ls.1 ls.2)) segs)[k]? =
          some seg2 ∧
        lookupTexts lang seg2.texts =
          (if 0 < maxOverlap seg subs then some (bestPair seg subs).2
           else lookupTexts lang seg.texts)
  | [], _, _, _, _, hmem, _ => absurd hmem (by simp)
  | (l0, s0) :: rest, segs, k, seg, hnd, hmem, hk => by
    have hk2 : (segs.map (alignSegLang l0 s0))[k]? = some (alignSegLang l0 s0 seg) := by
      rw [List.getElem?_map, hk]
      rfl
    have hnd2 : (rest.map Prod.fst).Nodup := (List.nodup_cons.mp (by simpa using hnd)).2
    have hl0 : l0 ∉ rest.map Prod.fst := (List.nodup_cons.mp (by simpa using hnd)).1
    rcases List.mem_cons.mp hmem with heq | hrest
    · have hl : lang = l0 := congrArg Prod.fst heq
      have hsx : subs = s0 := congrArg Prod.snd heq
      subst hl
      subst hsx
      have hself := alignSegLang_lookup_self lang subs seg
      obtain ⟨seg2, h1, h2, h3, h4⟩ :=
        foldPasses_preserve lang rest (segs.map (alignSegLang lang subs)) k
          (alignSegLang lang subs seg) hl0 hk2
      refine ⟨seg2, by simpa using h1, ?_⟩
      rw [h4, hself]
    · have hne : lang ≠ l0 := by
        intro hx
        subst hx
        exact hl0 (List.mem_map.mpr ⟨(lang, subs), hrest, rfl⟩)
      obtain ⟨seg2, h1, h2⟩ :=
        foldPasses_lookup lang subs rest (segs.map (alignSegLang l0 s0)) k
          (alignSegLang l0 s0 seg) hnd2 hrest hk2
      refine ⟨seg2, by simpa using h1, ?_⟩
      rw [h2]
      have hs := alignSegLang_start l0 s0 seg
      have he := alignSegLang_end l0 s0 seg
      rw [maxOverlap_congr hs he subs, bestPair_congr hs he subs,
        alignSegLang_lookup_ne (fun hx => hne hx.symm)]

theorem align_all_textsFor {segments : List Segment}
    {subtitles : List (String × List Caption)} {lang : String} {subs : List Caption}
    {k : Nat} {seg : Segment}
    (hnd : (subtitles.map Prod.fst).Nodup) (hmem : (lang, subs) ∈ subtitles)
    (hk : segments[k]? = some seg) :
    alignedTextFor (align_all_subtitles segments subtitles) k lang =
      if 0 < maxOverlap seg subs
      then (subs.find? fun sub => overlapOf seg sub == maxOverlap seg subs).map Caption.text
      else lookupTexts lang seg.texts := by
  obtain ⟨seg2, h1, h2⟩ := foldPasses_lookup lang subs subtitles segments k seg hnd hmem hk
  cases subtitles with
  | nil => exact absurd hmem (by simp)
  | cons ls rest =>
    obtain ⟨l0, s0⟩ := ls
    unfold align_all_subtitles alignedTextFor
    simp only
    rw [List.getElem?_map, h1]
    have htexts : lookupTexts lang
        (match lookupTexts l0 seg2.texts with
          | some t => { seg2 with text := t }
          | none => seg2).texts = lookupTexts lang seg2.texts := by
      cases lookupTexts l0 seg2.texts <;> rfl
    rw [Option.map_some', Option.some_bind]
    rw [htexts, h2]
    by_cases h0 : 0 < maxOverlap seg subs
    · rw [if_pos h0, if_pos h0, bestPair_snd seg subs h0]
    · rw [if_neg h0, if_neg h0]

/-! ## Framing and slice length facts -/

theorem framesOf_length (pcm : List Nat) :
    (framesOf pcm).length = pcm.length / frame_size := by
  simp [framesOf]

theorem framesOf_length_mul (pcm : List Nat) :
    (framesOf pcm).length * frame_size ≤ pcm.length := by
  rw [framesOf_length]
  exact Nat.div_mul_le_self pcm.length frame_size

theorem classifyAll_length (classify : List Nat → Option Bool) (frames : List (List Nat)) :
    (classifyAll classify frames).length = frames.length := by
  simp [classifyAll]

theorem extract_segment_pcm_length {pcm : List Nat} {a b : Nat} (hab : a ≤ b)
    (hb : b * 32 ≤ pcm.length) :
    (extract_segment_pcm pcm a b).length = (b - a) * 32 := by
  unfold extract_segment_pcm
  have h32 : SAMPLE_RATE * 2 / 1000 = 32 := rfl
  simp only [h32, List.length_take, List.length_drop]
  omega

theorem silenceLenBytes_eq (d : Nat) : silenceLenBytes d = d * 32 := by
  unfold silenceLenBytes SAMPLE_RATE
  omega

theorem foldl_add_sum (g : Segment → Nat) :
    ∀ (segs : List Segment) (acc : Nat),
      segs.foldl (fun a s => a + g s) acc = acc + (segs.map g).sum
  | [], acc => by simp
  | s :: rest, acc => by
    simp only [List.foldl_cons, List.map_cons, List.sum_cons]
    rw [foldl_add_sum g rest]
    omega

/-! ## Realizing a frame-decision sequence as a PCM buffer

The classifier is an external capability, so any decision sequence is
realizable: encode decision `k` in the first byte of frame `k` and let the
classifier read it back.  This turns concrete PCM-level scenarios into
concrete frame-level ones. -/

/-- A PCM buffer whose frame `k` is 960 copies of byte 1 when `ds[k]` is
speech and byte 0 otherwise. -/
def pcmOfDecisions (ds : List Bool) : List Nat :=
  (ds.map fun b => List.replicate frame_size (if b then 1 else 0)).flatten

/-- A deterministic classifier double that reports speech exactly when the
first byte of the frame is 1. -/
def headByteClassifier : List Nat → Option Bool :=
  fun frame => some (frame.headD 0 == 1)

theorem pcmOfDecisions_length :
    ∀ ds : List Bool, (pcmOfDecisions ds).length = ds.length * frame_size
  | [] => rfl
  | b :: rest => by
    show (List.replicate frame_size (if b then 1 else 0) ++ pcmOfDecisions rest).length =
      (rest.length + 1) * frame_size
    rw [List.length_append, List.length_replicate, pcmOfDecisions_length rest]
    ring

theorem headD_replicate {n : Nat} (x h : Nat) (hn : 0 < n) :
    (List.replicate n x).headD h = x := by
  cases n with
  | zero => omega
  | succ m => rfl

theorem slice_flatten (f : Bool → List Nat) (hf : ∀ b, (f b).length = frame_size) :
    ∀ (ds : List Bool) (k : Nat) (b : Bool), ds[k]? = some b →
      (((ds.map f).flatten).drop (k * frame_size)).take frame_size = f b
  | [], _, _, h => by simp at h
  | d :: rest, 0, b, h => by
    have hdb : d = b := by simpa using h
    subst hdb
    show ((f d ++ (rest.map f).flatten).drop 0).take frame_size = f d
    rw [List.drop_zero, ← hf d]
    exact List.take_left (f d) _
  | d :: rest, k + 1, b, h => by
    have hrest : rest[k]? = some b := by simpa using h
    show ((f d ++ (rest.map f).flatten).drop ((k + 1) * frame_size)).take frame_size = f b
    have hidx : (k + 1) * frame_size = (f d).length + k * frame_size := by
      rw [hf d]
      ring
    rw [hidx, List.drop_append]
    exact slice_flatten f hf rest k b hrest

theorem framesOf_pcmOfDecisions (ds : List Bool) :
    framesOf (pcmOfDecisions ds) =
      ds.map fun b => List.replicate frame_size (if b then 1 else 0) := by
  have hlen : (pcmOfDecisions ds).length / frame_size = ds.length := by
    rw [pcmOfDecisions_length]
    exact Nat.mul_div_cancel ds.length (by decide)
  unfold framesOf
  rw [hlen]
  refine List.ext_getElem (by simp) ?_
  intro n h1 h2
  simp only [List.getElem_map, List.getElem_range]
  have hn : n < ds.length := by simpa using h2
  exact slice_flatten _ (fun b => List.length_replicate ..) ds n ds[n]
    (List.getElem?_eq_getElem hn)

theorem classifyAll_pcmOfDecisions (ds : List Bool) :
    classifyAll headByteClassifier (framesOf (pcmOfDecisions ds)) = ds := by
  rw [framesOf_pcmOfDecisions]
  unfold classifyAll headByteClassifier
  rw [List.map_map]
  have hfun : ((fun frame : List Nat => (some (frame.headD 0 == 1)).getD false) ∘
      (fun b : Bool => List.replicate frame_size (if b then 1 else 0))) = id := by
    funext b
    cases b with
    | true =>
      show ((List.replicate frame_size (1 : Nat)).headD 0 == 1) = true
      rw [headD_replicate 1 0 (by decide)]
      rfl
    | false =>
      show ((List.replicate frame_size (0 : Nat)).headD 0 == 1) = false
      rw [headD_replicate 0 0 (by decide)]
      rfl
  rw [hfun, List.map_id]

theorem segment_audio_pcmOfDecisions (p : Params) (ds : List Bool) :
    segment_audio headByteClassifier (pcmOfDecisions ds) p = segment_audio_frames p ds := by
  unfold segment_audio
  rw [classifyAll_pcmOfDecisions]

/-! ## Claims -/

/-- C1 (counterexample): the claim that every hysteresis-closed segment has
`min_ms ≤ duration_ms` is false.  Under preset `sentences`, one speech
frame followed by 23 silence frames closes a segment by the hysteresis
rule (the `min_ms` test passes on the untrimmed elapsed duration 690 ms),
but trimming the silence run back leaves a 30 ms segment, far below
`min_ms = 500`. -/
theorem C1_counterexample :
    segmentAudioTraced ⟨500, 8000, 700, 200⟩ (true :: List.replicate 23 false) =
      [(({ start_ms := 0, end_ms := 30 } : Segment), CloseKind.hysteresis)] ∧
    PRESETS "sentences" = some ⟨500, 8000, 700, 200⟩ ∧
    ¬ 500 ≤ Segment.duration_ms { start_ms := 0, end_ms := 30 } :=
  ⟨by decide, by decide, by decide⟩

/-- C1 (amended): for every valid preset and every frame-decision
sequence, every hysteresis-closed segment satisfies
`duration_ms ≤ max_ms`; the `min_ms` lower bound does not hold for the
trimmed duration because `segment_audio` checks `min_ms` against the
untrimmed elapsed duration before trimming the silence run. -/
theorem C1_hysteresis_duration_le_max (name : String) (p : Params) (d : List Bool)
    (hp : PRESETS name = some p) :
    ∀ sk ∈ segmentAudioTraced p d, sk.2 = CloseKind.hysteresis →
      sk.1.duration_ms ≤ p.max_ms := by
  intro sk hsk hk
  exact (((traced_sound (presets_validParams hp)).2 sk hsk).2.2 hk).1

theorem C1_witness :
    (({ start_ms := 0, end_ms := 5010 } : Segment), CloseKind.hysteresis) ∈
      segmentAudioTraced ⟨500, 8000, 700, 200⟩
        (List.replicate 167 true ++ List.replicate 24 false) ∧
    Segment.duration_ms { start_ms := 0, end_ms := 5010 } ≤ 8000 := by
  have hmem : (({ start_ms := 0, end_ms := 5010 } : Segment), CloseKind.hysteresis) ∈
      segmentAudioTraced ⟨500, 8000, 700, 200⟩
        (List.replicate 167 true ++ List.replicate 24 false) := by decide
  exact ⟨hmem, C1_hysteresis_duration_le_max "sentences" ⟨500, 8000, 700, 200⟩
    (List.replicate 167 true ++ List.replicate 24 false) (by decide) _ hmem rfl⟩

/-- C2 (counterexample): 9000 ms of continuous speech (300 speech frames,
no pause) under preset `sentences` is NOT force-split into 8000 ms + rest:
`segment_audio` returns a single segment `[0, 9000]`, because the
`max_ms` test sits inside the non-speech branch of the loop and is never
evaluated while frames keep being classified as speech. -/
theorem C2_counterexample :
    segment_audio_frames ⟨500, 8000, 700, 200⟩ (List.replicate 300 true) =
      [{ start_ms := 0, end_ms := 9000 }] ∧
    PRESETS "sentences" = some ⟨500, 8000, 700, 200⟩ ∧
    ({ start_ms := 0, end_ms := 9000 } : Segment).end_ms ≠ 8000 :=
  ⟨by decide, by decide, by decide⟩

/-- C2 (amended): continuous speech of 9000 ms with no pause under preset
`sentences` yields exactly one segment `[0, 9000]`, emitted by the
end-of-stream flush; no forced split occurs, since the forced-split test
is only evaluated on non-speech frames. -/
theorem C2_continuous_speech_single_flush :
    segmentAudioTraced ⟨500, 8000, 700, 200⟩ (List.replicate 300 true) =
      [(({ start_ms := 0, end_ms := 9000 } : Segment), CloseKind.flush)] := by
  decide

/-- C3 (counterexample): segments can overlap.  Under preset `words`, 67
speech frames, one silence frame (forcing a split at 2010 ms) and 21 more
speech frames produce segments `[0, 2010]` and `[1890, 2670]`: the second
segment's pre-buffered start lies 120 ms before the first segment's end. -/
theorem C3_counterexample :
    segment_audio headByteClassifier
      (pcmOfDecisions (List.replicate 67 true ++ [false] ++ List.replicate 21 true))
      ⟨300, 2000, 400, 150⟩ =
      [{ start_ms := 0, end_ms := 2010 }, { start_ms := 1890, end_ms := 2670 }] ∧
    PRESETS "words" = some ⟨300, 2000, 400, 150⟩ ∧
    ({ start_ms := 1890, end_ms := 2670 } : Segment).start_ms <
      ({ start_ms := 0, end_ms := 2010 } : Segment).end_ms := by
  refine ⟨?_, by decide, by decide⟩
  rw [segment_audio_pcmOfDecisions]
  decide

/-- C3 (amended): for every PCM input, every classifier behavior and every
valid preset, the segment list returned by `segment_audio` is strictly
sorted ascending by `start_ms`; segments need not be disjoint, because a
pre-buffered start after a forced split can reach back before the
previous segment's end (see the counterexample). -/
theorem C3_sorted_by_start (name : String) (p : Params)
    (classify : List Nat → Option Bool) (pcm_data : List Nat)
    (hp : PRESETS name = some p) :
    (segment_audio classify pcm_data p).Pairwise fun a b => a.start_ms < b.start_ms := by
  have h := (traced_sound (d := classifyAll classify (framesOf pcm_data))
    (presets_validParams hp)).1
  exact List.Pairwise.map Prod.fst (fun a b hab => hab) h

theorem C3_witness :
    segment_audio headByteClassifier
      (pcmOfDecisions (List.replicate 67 true ++ [false] ++ List.replicate 21 true))
      ⟨300, 2000, 400, 150⟩ =
      [{ start_ms := 0, end_ms := 2010 }, { start_ms := 1890, end_ms := 2670 }] ∧
    ({ start_ms := 0, end_ms := 2010 } : Segment).start_ms <
      ({ start_ms := 1890, end_ms := 2670 } : Segment).start_ms := by
  have heq : segment_audio headByteClassifier
      (pcmOfDecisions (List.replicate 67 true ++ [false] ++ List.replicate 21 true))
      ⟨300, 2000, 400, 150⟩ =
      [{ start_ms := 0, end_ms := 2010 }, { start_ms := 1890, end_ms := 2670 }] := by
    rw [segment_audio_pcmOfDecisions]
    decide
  have h := C3_sorted_by_start "words" ⟨300, 2000, 400, 150⟩ headByteClassifier
    (pcmOfDecisions (List.replicate 67 true ++ [false] ++ List.replicate 21 true))
    (by decide)
  rw [heq] at h
  exact ⟨heq, (List.pairwise_cons.mp h).1 _ (List.mem_singleton.mpr rfl)⟩

/-- C4: for every segment list lying within the source PCM buffer, the
total length of the practice audio equals the sum over segments of
`playback_repeats * (beep + pause + seg + pause) +
user_repeats * (double_beep + pause + seg + pause) + done_beep +
done_pause`, with beep 150 ms, double beep 150+100+150 ms, pauses 300 ms,
done pause 500 ms, at 32 bytes per millisecond. -/
theorem C4_timeline_length_law (pcm_data : List Nat) (segments : List Segment)
    (playback_repeats user_repeats : Nat)
    (hin : ∀ s ∈ segments, s.start_ms ≤ s.end_ms ∧ s.end_ms * 32 ≤ pcm_data.length) :
    build_practice_audio_len pcm_data segments playback_repeats user_repeats =
      (segments.map fun s =>
        (playback_repeats * (150 + 300 + s.duration_ms + 300)
          + user_repeats * ((150 + 100 + 150) + 300 + s.duration_ms + 300)
          + 150 + 500) * 32).sum := by
  unfold build_practice_audio_len
  rw [foldl_add_sum (perSegmentLen pcm_data playback_repeats user_repeats) segments 0]
  rw [Nat.zero_add]
  refine congrArg List.sum (List.map_congr_left ?_)
  intro s hs
  obtain ⟨hab, hb⟩ := hin s hs
  unfold perSegmentLen
  have h1 : playback_beep_len = 4800 := rfl
  have h2 : your_turn_beep_len = 12800 := rfl
  have h3 : done_beep_len = 4800 := rfl
  have h4 : silenceLenBytes PAUSE_AFTER_BEEP_MS = 9600 := rfl
  have h5 : silenceLenBytes PAUSE_AFTER_SEGMENT_MS = 9600 := rfl
  have h6 : silenceLenBytes PAUSE_AFTER_DONE_MS = 16000 := rfl
  rw [h4, h5, h6, h1, h2, h3, extract_segment_pcm_length hab hb, silenceLenBytes_eq]
  show playback_repeats * (4800 + 9600 + (s.end_ms - s.start_ms) * 32 + 9600)
      + user_repeats * (12800 + 9600 + (s.end_ms - s.start_ms) * 32 + 9600)
      + 4800 + 16000 =
    (playback_repeats * (150 + 300 + (s.end_ms - s.start_ms) + 300)
      + user_repeats * ((150 + 100 + 150) + 300 + (s.end_ms - s.start_ms) + 300)
      + 150 + 500) * 32
  ring

theorem C4_witness :
    build_practice_audio_len (List.replicate 32000 0) [{ start_ms := 0, end_ms := 1000 }]
      2 1 = 196800 := by
  have h := C4_timeline_length_law (List.replicate 32000 0)
    [{ start_ms := 0, end_ms := 1000 }] 2 1 ?_
  · rw [h]
    decide
  · intro s hs
    have hseq : s = { start_ms := 0, end_ms := 1000, text := "", texts := [] } := by
      simpa using hs
    subst hseq
    refine ⟨by decide, ?_⟩
    rw [List.length_replicate]
    decide

/-- C5: whenever a segment is closed by the hysteresis rule, its end
boundary is a frame boundary sitting at the onset of the trailing silence
run: the frame just before it is speech and at least `silence_frames`
non-speech frames follow it (so the end is not at the current frame).  In
particular, 167 speech frames (5010 ms ≈ 5000 ms) followed by 24 silence
frames (720 ms ≥ 700 ms) under preset `sentences` yield exactly one
segment `[0, 5010]`, excluding the trailing pause. -/
theorem C5_trim_to_silence_onset :
    (∀ (name : String) (p : Params) (d : List Bool), PRESETS name = some p →
      ∀ sk ∈ segmentAudioTraced p d, sk.2 = CloseKind.hysteresis →
        (sk.1.end_ms / FRAME_DURATION_MS) * FRAME_DURATION_MS = sk.1.end_ms ∧
        1 ≤ sk.1.end_ms / FRAME_DURATION_MS ∧
        d[sk.1.end_ms / FRAME_DURATION_MS - 1]? = some true ∧
        ∀ j, sk.1.end_ms / FRAME_DURATION_MS ≤ j →
          j < sk.1.end_ms / FRAME_DURATION_MS + silenceFrames p → d[j]? = some false) ∧
    segment_audio_frames ⟨500, 8000, 700, 200⟩
      (List.replicate 167 true ++ List.replicate 24 false) =
      [{ start_ms := 0, end_ms := 5010 }] := by
  constructor
  · intro name p d hp sk hsk hk
    obtain ⟨eF, heq, h1, h2, h3⟩ :=
      (((traced_sound (presets_validParams hp)).2 sk hsk).2.2 hk).2
    have hdiv : sk.1.end_ms / FRAME_DURATION_MS = eF := by
      rw [heq]
      exact Nat.mul_div_cancel eF (by decide)
    rw [hdiv]
    exact ⟨heq.symm, h1, h2, h3⟩
  · decide

theorem C5_witness :
    (List.replicate 167 true ++ List.replicate 24 false)[166]? = some true ∧
    (List.replicate 167 true ++ List.replicate 24 false)[167]? = some false ∧
    (List.replicate 167 true ++ List.replicate 24 false)[189]? = some false := by
  have hmem : (({ start_ms := 0, end_ms := 5010 } : Segment), CloseKind.hysteresis) ∈
      segmentAudioTraced ⟨500, 8000, 700, 200⟩
        (List.replicate 167 true ++ List.replicate 24 false) := by decide
  obtain ⟨hA, hB, hC, hD⟩ := C5_trim_to_silence_onset.1 "sentences" ⟨500, 8000, 700, 200⟩
    (List.replicate 167 true ++ List.replicate 24 false) (by decide) _ hmem rfl
  exact ⟨hC, hD 167 (by decide) (by decide), hD 189 (by decide) (by decide)⟩

/-- C6 (counterexample): the frame-count thresholds are not rounded to the
nearest integer.  For preset `short`, `silence_ms = 500` gives
`silence_frames = int(500 / 30) = 16`, while rounding would give 17. -/
theorem C6_counterexample :
    silenceFrames ⟨500, 3000, 500, 200⟩ = 16 ∧
    roundNearest 500 FRAME_DURATION_MS = 17 ∧
    PRESETS "short" = some ⟨500, 3000, 500, 200⟩ ∧
    (16 : Nat) ≠ 17 :=
  ⟨by decide, by decide, by decide, by decide⟩

/-- C6 (amended): the thresholds are computed by truncating (floor)
division, `silence_frames = ⌊silence_ms / 30⌋` and
`pre_buffer_frames = ⌊pre_buffer_ms / 30⌋`; the derived values for the
four presets are 23/6 (`sentences`), 16/6 (`short`), 33/10 (`long`) and
13/5 (`words`). -/
theorem C6_thresholds_truncated :
    silenceFrames ⟨500, 8000, 700, 200⟩ = 23 ∧
    preBufferFrames ⟨500, 8000, 700, 200⟩ = 6 ∧
    silenceFrames ⟨500, 3000, 500, 200⟩ = 16 ∧
    preBufferFrames ⟨500, 3000, 500, 200⟩ = 6 ∧
    silenceFrames ⟨1000, 12000, 1000, 300⟩ = 33 ∧
    preBufferFrames ⟨1000, 12000, 1000, 300⟩ = 10 ∧
    silenceFrames ⟨300, 2000, 400, 150⟩ = 13 ∧
    preBufferFrames ⟨300, 2000, 400, 150⟩ = 5 := by
  decide

/-- C7: the classification pass is total and fail-open.  For every
classifier and frame list it yields exactly one boolean per frame, and any
frame on which the classifier raises (modelled by `none`) is recorded as
non-speech; no error reaches the caller of `segment_audio`. -/
theorem C7_fail_open (classify : List Nat → Option Bool) (frames : List (List Nat)) :
    (classifyAll classify frames).length = frames.length ∧
    ∀ (j : Nat) (frame : List Nat), frames[j]? = some frame → classify frame = none →
      (classifyAll classify frames)[j]? = some false := by
  constructor
  · simp [classifyAll]
  · intro j frame hj hcl
    unfold classifyAll
    rw [List.getElem?_map, hj]
    simp [hcl]

/-- A classifier double that raises on every frame. -/
def failingClassifier : List Nat → Option Bool := fun _ => none

theorem C7_witness :
    (classifyAll failingClassifier [[0]])[0]? = some false :=
  (C7_fail_open failingClassifier [[0]]).2 0 [0] (by decide) rfl

/-- C8: alignment assigns each segment the text of the caption with the
strictly greatest overlap `max(0, min(ends) - max(starts))`; on ties the
first caption in list order is kept, and when every caption has zero
overlap the segment's text for that language is left as it was.  In
particular the caption `{1000, 2000, "hello"}` against the segment
`{1500, 2500}` yields text `"hello"`. -/
theorem C8_best_overlap_alignment :
    (∀ (segments : List Segment) (subtitles : List Caption),
      align_subtitles segments subtitles = segments.map fun seg => alignSpec seg subtitles) ∧
    (∀ (segments : List Segment) (subtitles : List (String × List Caption))
        (lang : String) (subs : List Caption) (k : Nat) (seg : Segment),
      (subtitles.map Prod.fst).Nodup → (lang, subs) ∈ subtitles →
      segments[k]? = some seg →
      alignedTextFor (align_all_subtitles segments subtitles) k lang =
        if 0 < maxOverlap seg subs
        then (subs.find? fun sub => overlapOf seg sub == maxOverlap seg subs).map
          Caption.text
        else lookupTexts lang seg.texts) ∧
    align_subtitles [{ start_ms := 1500, end_ms := 2500 }] [⟨1000, 2000, "hello"⟩] =
      [{ start_ms := 1500, end_ms := 2500, text := "hello" }] := by
  refine ⟨?_, ?_, by decide⟩
  · intro segments subtitles
    unfold align_subtitles
    simp only [alignSeg_eq_alignSpec]
  · intro segments subtitles lang subs k seg hnd hmem hk
    exact align_all_textsFor hnd hmem hk

theorem C8_witness :
    alignedTextFor
      (align_all_subtitles [{ start_ms := 1500, end_ms := 2500 }]
        [("en", [⟨1000, 2000, "hello"⟩])]) 0 "en" = some "hello" := by
  have h := C8_best_overlap_alignment.2.1 [{ start_ms := 1500, end_ms := 2500 }]
    [("en", [⟨1000, 2000, "hello"⟩])] "en" [⟨1000, 2000, "hello"⟩] 0
    { start_ms := 1500, end_ms := 2500 } (by simp) (by simp) (by decide)
  rw [h]
  decide

/-- C9: if the frame stream ends while the detector is still in speech,
a final segment from the provisional start to the end of the stream is
emitted exactly when its duration reaches `min_ms`; otherwise the
trailing partial utterance produces no segment (and, the embedding being
a total function, no error or other signal). -/
theorem C9_flush_iff_min_duration (p : Params) (d : List Bool)
    (hsp : (detectLoop p 0 ⟨[], false, 0, 0⟩ d).in_speech = true) :
    segmentAudioTraced p d =
      if p.min_ms ≤ d.length * FRAME_DURATION_MS -
          (detectLoop p 0 ⟨[], false, 0, 0⟩ d).speech_start * FRAME_DURATION_MS
      then (detectLoop p 0 ⟨[], false, 0, 0⟩ d).segments ++
        [({ start_ms :=
              (detectLoop p 0 ⟨[], false, 0, 0⟩ d).speech_start * FRAME_DURATION_MS,
            end_ms := d.length * FRAME_DURATION_MS }, CloseKind.flush)]
      else (detectLoop p 0 ⟨[], false, 0, 0⟩ d).segments := by
  unfold segmentAudioTraced flushTrailing
  rw [hsp]
  simp

theorem C9_witness :
    segmentAudioTraced ⟨500, 8000, 700, 200⟩ (List.replicate 20 true) =
      [(({ start_ms := 0, end_ms := 600 } : Segment), CloseKind.flush)] := by
  have h := C9_flush_iff_min_duration ⟨500, 8000, 700, 200⟩ (List.replicate 20 true)
    (by decide)
  rw [h]
  decide

/-- C10: for every PCM input, classifier behavior and valid preset, every
segment of `segment_audio` satisfies `start_ms < end_ms ≤ n_frames * 30`
(with `n_frames` the number of whole 960-byte frames), and consequently
`extract_segment_pcm` returns an in-bounds slice of exactly
`(end_ms - start_ms) * 32` bytes. -/
theorem C10_bounds_and_exact_slice (name : String) (p : Params)
    (classify : List Nat → Option Bool) (pcm_data : List Nat)
    (hp : PRESETS name = some p) :
    ∀ seg ∈ segment_audio classify pcm_data p,
      seg.start_ms < seg.end_ms ∧
      seg.end_ms ≤ (framesOf pcm_data).length * FRAME_DURATION_MS ∧
      (extract_segment_pcm pcm_data seg.start_ms seg.end_ms).length =
        (seg.end_ms - seg.start_ms) * 32 := by
  intro seg hseg
  unfold segment_audio segment_audio_frames at hseg
  obtain ⟨sk, hsk, hfst⟩ := List.mem_map.mp hseg
  have hfacts := (traced_sound (presets_validParams hp)).2 sk hsk
  have hlen : (classifyAll classify (framesOf pcm_data)).length =
      (framesOf pcm_data).length := classifyAll_length classify (framesOf pcm_data)
  rw [← hfst]
  have hb1 : sk.1.start_ms < sk.1.end_ms := hfacts.1
  have hb2 : sk.1.end_ms ≤ (framesOf pcm_data).length * FRAME_DURATION_MS := by
    have h2 := hfacts.2.1
    rw [hlen] at h2
    exact h2
  refine ⟨hb1, hb2, ?_⟩
  refine extract_segment_pcm_length (le_of_lt hb1) ?_
  have hmul := framesOf_length_mul pcm_data
  have hfs : frame_size = 960 := rfl
  have hF : FRAME_DURATION_MS = 30 := rfl
  rw [hfs] at hmul
  rw [hF] at hb2
  omega

theorem C10_witness :
    (extract_segment_pcm (pcmOfDecisions (List.replicate 17 true)) 0 510).length =
      (510 - 0) * 32 := by
  have hmem : ({ start_ms := 0, end_ms := 510 } : Segment) ∈
      segment_audio headByteClassifier (pcmOfDecisions (List.replicate 17 true))
        ⟨500, 8000, 700, 200⟩ := by
    rw [segment_audio_pcmOfDecisions]
    decide
  exact (C10_bounds_and_exact_slice "sentences" ⟨500, 8000, 700, 200⟩ headByteClassifier
    (pcmOfDecisions (List.replicate 17 true)) (by decide)
    { start_ms := 0, end_ms := 510 } hmem).2.2

end ShadowMaster
